import Mathlib

/-!
Verification of the Text2Wind semantic dictionary generator
(`tools/generate_dictionary.py`).

The generator maps Spanish words to environmental effects: it derives a
centroid vector per semantic pole from seed words, scores each candidate
word's affinity to every pole by cosine similarity with thresholding,
linear rescaling and rounding, aggregates pole affinities into clamped
per-parameter effects, and assembles the final dictionary.

The embedding models numpy floating point by exact rationals.  Python
dicts are modelled by insertion-ordered association lists (`alookup`,
`pyInsert`), Python's `round` by round-half-to-even (`pyRound0`,
`round3`), and `np.linalg.norm` by `npNorm` built on a computable
rational square-root stand-in `ratSqrt` that is exact on perfect squares,
nonnegative everywhere and positive exactly on positive inputs - the
properties of the real square root that the generator's control flow
relies on.
-/

namespace Text2Wind

/- ────────────────────────────────────────────
   Numeric helpers: square root and Python rounding
   ──────────────────────────────────────────── -/

/-- Largest `j ≤ k` with `j * j ≤ n`, found by downward scan (structural
recursion, so that it reduces in the kernel). -/
def isqrtAux (n : ℕ) : ℕ → ℕ
  | 0 => 0
  | k + 1 => if (k + 1) * (k + 1) ≤ n then k + 1 else isqrtAux n k

/-- Integer square root: `isqrt n` is the largest `j` with `j * j ≤ n`. -/
def isqrt (n : ℕ) : ℕ := isqrtAux n n

/-- Rational stand-in for the real square root: exact on rationals whose
numerator and denominator are perfect squares, zero on nonpositive input,
and positive exactly on positive input. -/
def ratSqrt (q : ℚ) : ℚ :=
  if q ≤ 0 then 0 else (isqrt q.num.toNat : ℚ) / (isqrt q.den : ℚ)

/-- Embedding of Python's banker's rounding of a rational to an integer
(round half to even), as used by `round`. -/
def pyRound0 (q : ℚ) : ℤ :=
  if q - (⌊q⌋ : ℚ) < 1/2 then ⌊q⌋
  else if 1/2 < q - (⌊q⌋ : ℚ) then ⌊q⌋ + 1
  else if ⌊q⌋ % 2 = 0 then ⌊q⌋ else ⌊q⌋ + 1

/-- Embedding of Python's `round(x, 3)`. -/
def round3 (q : ℚ) : ℚ := (pyRound0 (q * 1000) : ℚ) / 1000

lemma one_le_isqrtAux (n : ℕ) (hn : 1 ≤ n) : ∀ k, 1 ≤ k → 1 ≤ isqrtAux n k := by
  intro k
  induction k with
  | zero => omega
  | succ k ih =>
    intro _
    unfold isqrtAux
    split
    · omega
    · next h =>
      have hk : 1 ≤ k := by
        by_contra hk0
        have hk1 : k = 0 := by omega
        subst hk1
        simp at h
        omega
      exact ih hk

lemma one_le_isqrt (n : ℕ) (hn : 1 ≤ n) : 1 ≤ isqrt n :=
  one_le_isqrtAux n hn n hn

lemma ratSqrt_nonneg (q : ℚ) : 0 ≤ ratSqrt q := by
  unfold ratSqrt
  split
  · exact le_refl 0
  · exact div_nonneg (Nat.cast_nonneg _) (Nat.cast_nonneg _)

lemma ratSqrt_pos (q : ℚ) (hq : 0 < q) : 0 < ratSqrt q := by
  unfold ratSqrt
  rw [if_neg (not_le.mpr hq)]
  apply div_pos
  · have h1 : 1 ≤ q.num.toNat := by
      have := Rat.num_pos.mpr hq
      omega
    exact_mod_cast Nat.lt_of_lt_of_le Nat.zero_lt_one (one_le_isqrt _ h1)
  · have h2 : 1 ≤ q.den := q.pos
    exact_mod_cast Nat.lt_of_lt_of_le Nat.zero_lt_one (one_le_isqrt _ h2)

lemma pyRound0_eq_floor_or_succ (q : ℚ) : pyRound0 q = ⌊q⌋ ∨ pyRound0 q = ⌊q⌋ + 1 := by
  unfold pyRound0
  split
  · exact Or.inl rfl
  · split
    · exact Or.inr rfl
    · split
      · exact Or.inl rfl
      · exact Or.inr rfl

lemma le_pyRound0 (n : ℤ) (q : ℚ) (h : (n : ℚ) ≤ q) : n ≤ pyRound0 q := by
  have hf : n ≤ ⌊q⌋ := Int.le_floor.mpr h
  rcases pyRound0_eq_floor_or_succ q with h1 | h1 <;> omega

lemma pyRound0_le (n : ℤ) (q : ℚ) (h : q ≤ (n : ℚ)) : pyRound0 q ≤ n := by
  have hf : ⌊q⌋ ≤ n := by
    have : ⌊q⌋ ≤ ⌊(n : ℚ)⌋ := Int.floor_le_floor h
    simpa using this
  unfold pyRound0
  split
  · exact hf
  · next hr =>
    have hr' : (1 : ℚ)/2 ≤ q - (⌊q⌋ : ℚ) := not_lt.mp hr
    have hlt : (⌊q⌋ : ℚ) < q := by linarith
    have hlt2 : (⌊q⌋ : ℚ) < (n : ℚ) := lt_of_lt_of_le hlt h
    have hltn : ⌊q⌋ < n := by exact_mod_cast hlt2
    split
    · omega
    · split
      · exact hf
      · omega

lemma round3_le (q : ℚ) (h : q ≤ 1) : round3 q ≤ 1 := by
  unfold round3
  have h1 : q * 1000 ≤ ((1000 : ℤ) : ℚ) := by push_cast; linarith
  have h2 : pyRound0 (q * 1000) ≤ 1000 := pyRound0_le 1000 _ h1
  rw [div_le_one (by norm_num)]
  exact_mod_cast h2

lemma le_round3 (q : ℚ) (n : ℤ) (h : (n : ℚ) ≤ q * 1000) : (n : ℚ) / 1000 ≤ round3 q := by
  unfold round3
  have h2 : n ≤ pyRound0 (q * 1000) := le_pyRound0 n _ h
  have h3 : (n : ℚ) ≤ (pyRound0 (q * 1000) : ℚ) := by exact_mod_cast h2
  exact (div_le_div_iff_of_pos_right (by norm_num)).mpr h3

lemma round3_nonneg (q : ℚ) (h : 0 ≤ q) : 0 ≤ round3 q := by
  unfold round3
  have h1 : ((0 : ℤ) : ℚ) ≤ q * 1000 := by push_cast; linarith
  have h2 : (0 : ℤ) ≤ pyRound0 (q * 1000) := le_pyRound0 0 _ h1
  apply div_nonneg ?_ (by norm_num)
  exact_mod_cast h2

lemma neg_one_le_round3 (q : ℚ) (h : -1 ≤ q) : -1 ≤ round3 q := by
  unfold round3
  have h1 : ((-1000 : ℤ) : ℚ) ≤ q * 1000 := by push_cast; linarith
  have h2 : (-1000 : ℤ) ≤ pyRound0 (q * 1000) := le_pyRound0 (-1000) _ h1
  rw [le_div_iff₀ (by norm_num : (0:ℚ) < 1000)]
  have h3 : ((-1000 : ℤ) : ℚ) ≤ (pyRound0 (q * 1000) : ℚ) := by exact_mod_cast h2
  push_cast at h3
  linarith

lemma round3_zero : round3 0 = 0 := by
  norm_num [round3, pyRound0]

lemma round3_one : round3 1 = 1 := by
  norm_num [round3, pyRound0]

/- ────────────────────────────────────────────
   Insertion-ordered association lists: the model of Python dicts
   ──────────────────────────────────────────── -/

/-- Lookup in an association list (first binding wins, as in a Python dict
where keys are unique). -/
def alookup {α : Type} : List (String × α) → String → Option α
  | [], _ => none
  | kv :: rest, k => if kv.1 = k then some kv.2 else alookup rest k

/-- `d[k] = v` on a Python dict: replace the binding in place if the key is
present, otherwise append the new binding at the end (insertion order). -/
def pyInsert {α : Type} (k : String) (v : α) : List (String × α) → List (String × α)
  | [] => [(k, v)]
  | kv :: rest => if kv.1 = k then (k, v) :: rest else kv :: pyInsert k v rest

/-- `existing.update(new)` on Python dicts. -/
def pyUpdate {α : Type} (existing new : List (String × α)) : List (String × α) :=
  new.foldl (fun m kv => pyInsert kv.1 kv.2 m) existing

lemma alookup_pyInsert_self {α : Type} (k : String) (v : α) (m : List (String × α)) :
    alookup (pyInsert k v m) k = some v := by
  induction m with
  | nil => simp [pyInsert, alookup]
  | cons kv rest ih =>
    by_cases h : kv.1 = k
    · simp [pyInsert, h, alookup]
    · simp [pyInsert, h, alookup, ih]

lemma alookup_pyInsert_ne {α : Type} (k k' : String) (v : α) (m : List (String × α))
    (h : k' ≠ k) : alookup (pyInsert k v m) k' = alookup m k' := by
  have hne : k ≠ k' := Ne.symm h
  induction m with
  | nil => simp only [pyInsert, alookup, if_neg hne]
  | cons kv rest ih =>
    by_cases hk : kv.1 = k
    · have hkv : kv.1 ≠ k' := by rw [hk]; exact hne
      simp only [pyInsert, if_pos hk, alookup, if_neg hne, if_neg hkv]
    · by_cases hk' : kv.1 = k'
      · simp only [pyInsert, if_neg hk, alookup, if_pos hk']
      · simp only [pyInsert, if_neg hk, alookup, if_neg hk', ih]

lemma mem_pyInsert {α : Type} (p : String × α) (k : String) (v : α)
    (m : List (String × α)) (h : p ∈ pyInsert k v m) : p ∈ m ∨ p = (k, v) := by
  induction m with
  | nil => simpa [pyInsert] using h
  | cons kv rest ih =>
    by_cases hk : kv.1 = k
    · simp only [pyInsert, if_pos hk, List.mem_cons] at h
      rcases h with h | h
      · exact Or.inr h
      · exact Or.inl (List.mem_cons_of_mem _ h)
    · simp only [pyInsert, if_neg hk, List.mem_cons] at h
      rcases h with h | h
      · exact Or.inl (List.mem_cons.mpr (Or.inl h))
      · rcases ih h with h' | h'
        · exact Or.inl (List.mem_cons_of_mem _ h')
        · exact Or.inr h'

lemma keys_mem_pyInsert {α : Type} (x k : String) (v : α) (m : List (String × α)) :
    x ∈ (pyInsert k v m).map Prod.fst ↔ x ∈ m.map Prod.fst ∨ x = k := by
  induction m with
  | nil => simp [pyInsert]
  | cons kv rest ih =>
    by_cases hk : kv.1 = k
    · subst hk
      simp [pyInsert]
      tauto
    · simp [pyInsert, hk, ih]
      tauto

lemma alookup_eq_none_iff {α : Type} (m : List (String × α)) (k : String) :
    alookup m k = none ↔ k ∉ m.map Prod.fst := by
  induction m with
  | nil => simp [alookup]
  | cons kv rest ih =>
    by_cases h : kv.1 = k
    · simp [alookup, h]
    · simp [alookup, h, ih, Ne.symm h]

lemma alookup_mem {α : Type} (m : List (String × α)) (k : String) (v : α)
    (h : alookup m k = some v) : (k, v) ∈ m := by
  induction m with
  | nil => simp [alookup] at h
  | cons kv rest ih =>
    by_cases hk : kv.1 = k
    · simp only [alookup, if_pos hk] at h
      obtain rfl : kv.2 = v := Option.some_injective _ h
      exact List.mem_cons.mpr (Or.inl (by rw [← hk]))
    · simp only [alookup, if_neg hk] at h
      exact List.mem_cons_of_mem _ (ih h)

lemma alookup_of_mem_nodup {α : Type} (m : List (String × α)) (k : String) (v : α)
    (hn : (m.map Prod.fst).Nodup) (h : (k, v) ∈ m) : alookup m k = some v := by
  induction m with
  | nil => simp at h
  | cons kv rest ih =>
    simp only [List.map_cons, List.nodup_cons] at hn
    rcases List.mem_cons.mp h with h1 | h1
    · subst h1
      simp [alookup]
    · have hk : kv.1 ≠ k := by
        intro hkk
        exact hn.1 (hkk ▸ (List.mem_map_of_mem Prod.fst h1))
      simp only [alookup, if_neg hk]
      exact ih hn.2 h1

lemma mem_keys_of_mem {α : Type} (m : List (String × α)) (k : String) (v : α)
    (h : (k, v) ∈ m) : k ∈ m.map Prod.fst :=
  List.mem_map_of_mem Prod.fst h

/- ────────────────────────────────────────────
   Generic lemmas about dict-building folds of the shape
   `foldl (fun m b => if P b then m[key b] = val b else m)`
   ──────────────────────────────────────────── -/

section FoldInsert

variable {α β : Type}
variable (f : List (String × α) → β → List (String × α))
variable (key : β → String) (P : β → Prop) [DecidablePred P] (val : β → α)

lemma foldl_insert_alookup_not_mem
    (hf : ∀ m b, f m b = if P b then pyInsert (key b) (val b) m else m) :
    ∀ (l : List β) (acc : List (String × α)) (x : String),
      x ∉ l.map key → alookup (l.foldl f acc) x = alookup acc x := by
  intro l
  induction l with
  | nil => intro acc x _; rfl
  | cons b rest ih =>
    intro acc x hx
    simp only [List.map_cons, List.mem_cons, not_or] at hx
    rw [List.foldl_cons, ih (f acc b) x hx.2, hf]
    split
    · exact alookup_pyInsert_ne _ _ _ _ hx.1
    · rfl

lemma foldl_insert_alookup_mem
    (hf : ∀ m b, f m b = if P b then pyInsert (key b) (val b) m else m) :
    ∀ (l : List β) (acc : List (String × α)) (x : β),
      (l.map key).Nodup → x ∈ l →
      alookup (l.foldl f acc) (key x) =
        if P x then some (val x) else alookup acc (key x) := by
  intro l
  induction l with
  | nil => intro acc x _ hx; simp at hx
  | cons b rest ih =>
    intro acc x hn hx
    simp only [List.map_cons, List.nodup_cons] at hn
    rcases List.mem_cons.mp hx with rfl | hx'
    · rw [List.foldl_cons,
        foldl_insert_alookup_not_mem f key P val hf rest (f acc x) (key x) hn.1, hf]
      split
      · exact alookup_pyInsert_self _ _ _
      · rfl
    · have hkey : key x ≠ key b := by
        intro he
        exact hn.1 (he ▸ List.mem_map_of_mem key hx')
      have hstep : alookup (f acc b) (key x) = alookup acc (key x) := by
        rw [hf]
        split
        · exact alookup_pyInsert_ne _ _ _ _ hkey
        · rfl
      rw [List.foldl_cons, ih (f acc b) x hn.2 hx', hstep]

lemma foldl_insert_keys
    (hf : ∀ m b, f m b = if P b then pyInsert (key b) (val b) m else m) :
    ∀ (l : List β) (acc : List (String × α)) (x : String),
      x ∈ (l.foldl f acc).map Prod.fst →
      x ∈ acc.map Prod.fst ∨ ∃ b ∈ l, key b = x ∧ P b := by
  intro l
  induction l with
  | nil => intro acc x h; exact Or.inl h
  | cons b rest ih =>
    intro acc x h
    rw [List.foldl_cons] at h
    rcases ih (f acc b) x h with h1 | h1
    · rw [hf] at h1
      by_cases hp : P b
      · rw [if_pos hp] at h1
        rcases (keys_mem_pyInsert x (key b) (val b) acc).mp h1 with h2 | h2
        · exact Or.inl h2
        · exact Or.inr ⟨b, List.mem_cons_self b rest, h2.symm, hp⟩
      · rw [if_neg hp] at h1
        exact Or.inl h1
    · obtain ⟨b', hb', hkey, hp⟩ := h1
      exact Or.inr ⟨b', List.mem_cons_of_mem _ hb', hkey, hp⟩

lemma foldl_insert_mem_pairs
    (hf : ∀ m b, f m b = if P b then pyInsert (key b) (val b) m else m) :
    ∀ (l : List β) (acc : List (String × α)) (p : String × α),
      p ∈ l.foldl f acc →
      p ∈ acc ∨ ∃ b ∈ l, P b ∧ p = (key b, val b) := by
  intro l
  induction l with
  | nil => intro acc p h; exact Or.inl h
  | cons b rest ih =>
    intro acc p h
    rw [List.foldl_cons] at h
    rcases ih (f acc b) p h with h1 | h1
    · rw [hf] at h1
      by_cases hp : P b
      · rw [if_pos hp] at h1
        rcases mem_pyInsert p (key b) (val b) acc h1 with h2 | h2
        · exact Or.inl h2
        · exact Or.inr ⟨b, List.mem_cons_self b rest, hp, h2⟩
      · rw [if_neg hp] at h1
        exact Or.inl h1
    · obtain ⟨b', hb', hp, hpe⟩ := h1
      exact Or.inr ⟨b', List.mem_cons_of_mem _ hb', hp, hpe⟩

end FoldInsert

/- ────────────────────────────────────────────
   Vectors (numpy arrays as rational lists)
   ──────────────────────────────────────────── -/

/-- `np.dot` of two equal-length vectors. -/
def dot (a b : List ℚ) : ℚ := (List.zipWith (· * ·) a b).sum

/-- `np.linalg.norm`: the Euclidean norm `√(Σ vᵢ²)`, via `ratSqrt`. -/
def npNorm (v : List ℚ) : ℚ := ratSqrt (dot v v)

/-- Elementwise division of a vector by a scalar. -/
def vecDiv (v : List ℚ) (c : ℚ) : List ℚ := v.map (fun x => x / c)

/-- Elementwise vector addition. -/
def vecAdd (a b : List ℚ) : List ℚ := List.zipWith (· + ·) a b

/-- `np.mean(vectors, axis=0)`: the elementwise arithmetic mean. -/
def vecMean : List (List ℚ) → List ℚ
  | [] => []
  | v :: vs => (vs.foldl vecAdd v).map (fun x => x / ((vs.length + 1 : ℕ) : ℚ))


/- ────────────────────────────────────────────
   Data model
   ──────────────────────────────────────────── -/

/-- The result of running the spaCy pipeline on one word: `doc.has_vector`
and `doc.vector`. -/
structure Doc where
  has_vector : Bool
  vector : List ℚ

/-- The external vector provider (the loaded spaCy model `self.nlp`). -/
abbrev Nlp := String → Doc

/-- One pole of the configuration file: seed words, optional display
label and glyph, and the parameter-weight map `affects`.  Absent `affects`
is modelled as the empty map, matching `pole_data.get("affects", \x7b\x7d)`. -/
structure PoleData where
  seeds : List String
  label : Option String
  emoji : Option String
  affects : List (String × ℚ)
deriving DecidableEq

/-- The poles configuration: `data["poles"]` and
`data["config"]["similarity_threshold"]` (absent modelled as `none`). -/
structure PolesConfig where
  poles : List (String × PoleData)
  similarity_threshold : Option ℚ

/-- `self.config.get("similarity_threshold", 0.35)`. -/
def similarityThreshold (cfg : PolesConfig) : ℚ := cfg.similarity_threshold.getD 0.35

/-- One entry of the output dictionary: `{"poles": ..., "effects": ...}`. -/
structure Entry where
  poles : List (String × ℚ)
  effects : List (String × ℚ)
deriving DecidableEq

/-- The state accumulated by `generate_dictionary`'s main loop:
the dictionary plus the three diagnostic counters. -/
structure GenResult where
  dict : List (String × Entry)
  word_count : ℕ
  no_vector : ℕ
  no_affinity : ℕ

def CURATED_WORDS : List String := [
  "agua", "lluvia", "mar", "océano", "río", "lago", "gota", "charco",
  "inundación", "cascada", "arroyo", "manantial", "rocío", "humedad", "vapor", "niebla",
  "llovizna", "torrente", "marea", "ola", "naufragio", "sumergir", "ahogar", "sed",
  "playa", "costa", "profundidad", "corriente", "caudal", "estanque", "acequia", "riachuelo",
  "diluvio", "fuego", "sol", "verano", "desierto", "fiebre", "calor", "llama",
  "ardiente", "incendio", "brasa", "horno", "sofocante", "tropical", "lava", "ceniza",
  "candente", "quemar", "hervir", "sudor", "caliente", "calentar", "llameante", "fogata",
  "hoguera", "lumbre", "volcán", "erupción", "fundir", "derretir", "abrasar", "hielo",
  "nieve", "invierno", "frío", "escarcha", "glaciar", "congelar", "helado", "polar",
  "gélido", "tundra", "blanco", "cristal", "témpano", "neblina", "aliento", "tiritar",
  "páramo", "ventisca", "avalancha", "viento", "tormenta", "huracán", "ráfaga", "vendaval",
  "ciclón", "tornado", "brisa", "soplar", "tempestad", "borrasca", "remolino", "turbulencia",
  "oleaje", "azote", "silbar", "rugir", "grito", "escape", "huida", "correr",
  "caos", "aullar", "bramar", "relinchar", "explosión", "estallido", "estruendo", "trueno",
  "paz", "calma", "reposo", "jardín", "respirar", "lento", "musgo", "tranquilo",
  "sereno", "quietud", "silencio", "meditación", "contemplar", "descanso", "suave", "tibio",
  "armonía", "equilibrio", "pluma", "suspiro", "cuna", "abrazo", "caricia", "espera",
  "pausa", "paciencia", "ternura", "dulzura", "suavidad", "delicado", "noche", "sombra",
  "oscuro", "oscuridad", "olvido", "profundo", "cueva", "ceguera", "abismo", "vacío",
  "negro", "tiniebla", "penumbra", "eclipse", "crepúsculo", "ocaso", "apagar", "enterrar",
  "secreto", "cripta", "sótano", "pozo", "fondo", "subterráneo", "laberinto", "túnel",
  "gruta", "sepulcro", "hondura", "amanecer", "luz", "brillo", "aurora", "alba",
  "dorado", "resplandor", "destello", "fulgor", "luminoso", "claro", "radiante", "centelleo",
  "chispa", "estrella", "faro", "espejo", "reflejo", "mirada", "revelación", "despertar",
  "abrir", "nacer", "brillante", "solar", "fosforescer", "llamarada", "relucir", "destello",
  "espiga", "espigar", "espigadora", "memoria", "recuerdo", "olvido", "tiempo", "reloj",
  "corazón", "mano", "varda", "desecho", "basura", "obsoleto", "muerte", "nacer",
  "papa", "recolectar", "recoger", "rescatar", "abandonar", "perder", "encontrar", "buscar",
  "caminar", "mirar", "observar", "contemplar", "atender", "descartar", "tirar", "arrojar",
  "dejar", "soltar", "liberar", "volar", "flotar", "caer", "hundirse", "crecer",
  "brotar", "florecer", "marchitar", "secar", "morir", "vivir", "respirar", "existir",
  "soñar", "despertar", "dormir", "soñar", "pensar", "sentir", "tocar", "oler",
  "escuchar", "ver", "mirar", "oír", "palabra", "letra", "texto", "frase",
  "verso", "poema", "historia", "cuento", "relato", "narración", "escribir", "leer",
  "borrar", "dibujar", "pintar", "trazar", "marcar", "grabar", "inscribir", "tallar",
  "papel", "tinta", "pluma", "lápiz", "pincel", "trazo", "línea", "curva",
  "punto", "mancha", "gota", "color", "rojo", "azul", "verde", "amarillo",
  "violeta", "naranja", "rosa", "blanco", "negro", "gris", "dorado", "plateado",
  "púrpura", "carmesí", "turquesa", "índigo", "ámbar", "marfil", "coral", "casa",
  "hogar", "habitación", "ventana", "puerta", "techo", "pared", "piso", "escalera",
  "pasillo", "calle", "camino", "sendero", "ruta", "vereda", "huella", "paso",
  "puente", "cruce", "esquina", "plaza", "ciudad", "pueblo", "aldea", "barrio",
  "campo", "pradera", "bosque", "selva", "montaña", "valle", "colina", "cielo",
  "nube", "horizonte", "atardecer", "madrugada", "mediodía", "medianoche", "estación", "otoño",
  "primavera", "verano", "invierno", "luna", "sol", "tierra", "piedra", "roca",
  "arena", "polvo", "barro", "hierba", "flor", "árbol", "hoja", "rama",
  "raíz", "tronco", "semilla", "fruto", "cosecha", "siembra", "pájaro", "paloma",
  "cuervo", "gaviota", "búho", "lechuza", "gorrión", "mariposa", "abeja", "perro",
  "gato", "caballo", "lobo", "zorro", "ciervo", "conejo", "ratón", "serpiente",
  "pez", "persona", "hombre", "mujer", "niño", "niña", "anciano", "anciana",
  "madre", "padre", "hijo", "hija", "hermano", "hermana", "amigo", "amiga",
  "vecino", "extraño", "forastero", "viajero", "caminante", "amor", "odio", "miedo",
  "esperanza", "tristeza", "alegría", "dolor", "placer", "angustia", "nostalgia", "soledad",
  "compañía", "presencia", "ausencia", "distancia", "cercanía", "lejanía", "inmensidad", "infinito",
  "eterno", "fugaz", "efímero", "permanente", "transitorio", "momentáneo", "duradero", "grande",
  "pequeño", "alto", "bajo", "ancho", "estrecho", "largo", "corto", "grueso",
  "delgado", "rápido", "lento", "fuerte", "débil", "duro", "blando", "pesado",
  "liviano", "denso", "ligero", "viejo", "nuevo", "antiguo", "moderno", "joven",
  "gastado", "roto", "usado", "desgastado", "frágil", "bello", "feo", "hermoso",
  "horrible", "sublime", "terrible", "magnífico", "miserable", "silencio", "ruido", "sonido",
  "murmullo", "susurro", "grito", "canto", "melodía", "ritmo", "eco", "música",
  "nota", "acorde", "disonancia", "armonía", "vibración", "resonancia", "frecuencia", "tono"
]

/- ────────────────────────────────────────────
   The Semantic Pole Engine
   ──────────────────────────────────────────── -/

/-- The cache-free semantics of `get_vector`: the vector returned by the
pipeline when `doc.has_vector` holds and the vector's norm is positive,
otherwise `none`.  `get_vector` below memoizes exactly this function
(established by the C10 theorem), so the rest of the engine is stated
against it. -/
def pure_get_vector (nlp : Nlp) (word : String) : Option (List ℚ) :=
  if (nlp word).has_vector = true ∧ 0 < npNorm ((nlp word).vector) then
    some ((nlp word).vector)
  else none

/-- `get_vector` with its memo cache (`self._vector_cache`) passed
explicitly: consult the cache first, otherwise run the pipeline, cache a
vector with positive norm, or cache `None`. -/
def get_vector (nlp : Nlp) (cache : List (String × Option (List ℚ))) (word : String) :
    Option (List ℚ) × List (String × Option (List ℚ)) :=
  match alookup cache word with
  | some r => (r, cache)
  | none =>
    if (nlp word).has_vector = true ∧ 0 < npNorm ((nlp word).vector) then
      (some ((nlp word).vector), pyInsert word (some ((nlp word).vector)) cache)
    else
      (none, pyInsert word none cache)

/-- `compute_pole_centroids`: for every pole collect the seed vectors that
exist, and if any do, store the mean of the valid seed vectors, normalized
when its norm is positive.  Poles with no valid seed vector are skipped
(a warning in the source, not an error). -/
def compute_pole_centroids (nlp : Nlp) (poles : List (String × PoleData)) :
    List (String × List ℚ) :=
  poles.foldl (fun pole_vectors pp =>
    let vectors := pp.2.seeds.filterMap (pure_get_vector nlp)
    if vectors = [] then pole_vectors
    else
      let centroid := vecMean vectors
      let norm := npNorm centroid
      pyInsert pp.1 (if 0 < norm then vecDiv centroid norm else centroid) pole_vectors) []

/-- `compute_word_affinities`: `None` when the word has no vector or the
vector's norm is zero; otherwise the dict of poles whose cosine similarity
with the normalized word vector reaches the threshold, each mapped to
`round(min((sim - T)/(1 - T), 1.0), 3)`; `None` instead of an empty dict. -/
def compute_word_affinities (nlp : Nlp) (pole_vectors : List (String × List ℚ))
    (cfg : PolesConfig) (word : String) : Option (List (String × ℚ)) :=
  match pure_get_vector nlp word with
  | none => none
  | some word_vec =>
    if npNorm word_vec = 0 then none
    else
      let word_vec_normalized := vecDiv word_vec (npNorm word_vec)
      let threshold := similarityThreshold cfg
      let affinities := pole_vectors.foldl (fun acc pc =>
        let similarity := dot word_vec_normalized pc.2
        if threshold ≤ similarity then
          pyInsert pc.1 (round3 (min ((similarity - threshold) / (1 - threshold)) 1)) acc
        else acc) []
      if affinities = [] then none else some affinities

/-- `self.poles.get(pole_name, \x7b\x7d).get("affects", \x7b\x7d)`. -/
def affectsOf (poles : List (String × PoleData)) (pole_name : String) :
    List (String × ℚ) :=
  ((alookup poles pole_name).map PoleData.affects).getD []

/-- The accumulation loop of `compute_environmental_effects`, before
clamping and rounding: for every `(pole, strength)` affinity pair and
every `(param, weight)` the pole affects, add `weight * strength` to the
running per-parameter total (missing parameters start at 0.0). -/
def accumulate_effects (poles : List (String × PoleData))
    (affinities : List (String × ℚ)) : List (String × ℚ) :=
  affinities.foldl (fun effects pa =>
    (affectsOf poles pa.1).foldl (fun e pw =>
      pyInsert pw.1 ((alookup e pw.1).getD 0 + pw.2 * pa.2) e) effects) []

/-- `compute_environmental_effects`: accumulate, then clamp every
parameter total to `[-1, 1]` and round to 3 decimals. -/
def compute_environmental_effects (poles : List (String × PoleData))
    (affinities : List (String × ℚ)) : List (String × ℚ) :=
  (accumulate_effects poles affinities).map
    (fun pe => (pe.1, round3 (max (-1) (min 1 pe.2))))

/-- `w.strip().lower()` applied to every incoming token: drop whitespace
at both ends, then lowercase every character (character-level model of
`str.strip` / `str.lower`, restricted to `Char.isWhitespace` /
`Char.toLower`). -/
def cleanTok (w : String) : String :=
  String.mk ((((w.data.dropWhile Char.isWhitespace).reverse.dropWhile
    Char.isWhitespace).reverse).map Char.toLower)

/-- Python's `str.isalpha()`: nonempty and every character alphabetic
(restricted to the ASCII letter predicate of `Char.isAlpha`; the
distinction never matters in the claims below). -/
def pyIsAlpha (w : String) : Bool := !w.data.isEmpty && w.data.all Char.isAlpha

/-- The candidate word set of `generate_dictionary`: curated vocabulary,
optional `--words` extras and the optional external word-list file, each
token stripped and lowercased; tokens shorter than 2 characters are
dropped everywhere, and word-list tokens must additionally be alphabetic.
`none` models an absent source (no `--words` flag / no word-list file). -/
def candidate_set (extra_words wordlist : Option (List String)) : Finset String :=
  ((CURATED_WORDS.map cleanTok).filter (fun w => decide (2 ≤ w.length))).toFinset
  ∪ (((extra_words.getD []).map cleanTok).filter (fun w => decide (2 ≤ w.length))).toFinset
  ∪ (((wordlist.getD []).map cleanTok).filter
      (fun w => decide (2 ≤ w.length) && pyIsAlpha w)).toFinset

/-- `sorted(candidates)`: the deterministic processing order. -/
def sorted_candidates (extra_words wordlist : Option (List String)) : List String :=
  (candidate_set extra_words wordlist).sort (· ≤ ·)

/-- The body of `generate_dictionary`'s main loop over one candidate word. -/
def generate_step (nlp : Nlp) (cfg : PolesConfig)
    (pole_vectors : List (String × List ℚ)) (st : GenResult) (word : String) :
    GenResult :=
  match compute_word_affinities nlp pole_vectors cfg word with
  | none => { st with no_vector := st.no_vector + 1 }
  | some affinities =>
    let effects := compute_environmental_effects cfg.poles affinities
    if effects = [] then { st with no_affinity := st.no_affinity + 1 }
    else
      { st with
        dict := pyInsert word { poles := affinities, effects := effects } st.dict,
        word_count := st.word_count + 1 }

/-- `generate_dictionary`: process the sorted candidates, building the
dictionary and tallying the `no_vector` / `no_affinity` diagnostics. -/
def generate_dictionary (nlp : Nlp) (cfg : PolesConfig)
    (pole_vectors : List (String × List ℚ))
    (extra_words wordlist : Option (List String)) : GenResult :=
  (sorted_candidates extra_words wordlist).foldl
    (generate_step nlp cfg pole_vectors) { dict := [], word_count := 0, no_vector := 0, no_affinity := 0 }

/-- The per-pole display metadata block of the output. -/
structure PoleMeta where
  emoji : String
  label : String
  affects : List (String × ℚ)
deriving DecidableEq

/-- The `_meta` block of the output JSON. -/
structure OutputMeta where
  generator : String
  version : String
  description : String
  concept : String
  total_words : ℕ
  poles : List String
  generated_at : String
  model : String
deriving DecidableEq

/-- The full output JSON structure. -/
structure Output where
  meta : OutputMeta
  poles : List (String × PoleMeta)
  words : List (String × Entry)
deriving DecidableEq

/-- `generate_output`: the final structure written to disk.  The run time
(`time.strftime(...)`) enters as the explicit `generated_at` argument. -/
def generate_output (model_name generated_at : String)
    (poles : List (String × PoleData)) (dictionary : List (String × Entry)) : Output :=
  { meta :=
    { generator := "Text2Wind Semantic Dictionary Generator"
      version := "1.0.0"
      description := "Maps Spanish words to environmental effects via word embeddings"
      concept := "Inspired by Agnès Varda\x27s \x27Les Glaneurs et la Glaneuse\x27 (2000)"
      total_words := dictionary.length
      poles := poles.map Prod.fst
      generated_at := generated_at
      model := model_name }
    poles := poles.map (fun pp =>
      (pp.1,
        { emoji := pp.2.emoji.getD "•"
          label := pp.2.label.getD pp.1
          affects := pp.2.affects }))
    words := dictionary }

/-- The `--extend` merge in `main`: `existing_words.update(dictionary)`,
then the merged dict replaces the freshly generated one. -/
def extend_merge (existing_words dictionary : List (String × Entry)) :
    List (String × Entry) :=
  pyUpdate existing_words dictionary


/- ────────────────────────────────────────────
   Bridging lemmas
   ──────────────────────────────────────────── -/

lemma pure_get_vector_norm_pos (nlp : Nlp) (w : String) (v : List ℚ)
    (h : pure_get_vector nlp w = some v) : 0 < npNorm v := by
  unfold pure_get_vector at h
  split at h
  · next hc =>
    injection h with h'
    exact h' ▸ hc.2
  · exact absurd h (by simp)

/-- With an available word vector, `compute_word_affinities` (joined over
the `None` case) is exactly its threshold fold over the pole centroids. -/
lemma compute_word_affinities_eq (nlp : Nlp) (pv : List (String × List ℚ))
    (cfg : PolesConfig) (word : String) (v : List ℚ)
    (h : pure_get_vector nlp word = some v) :
    (compute_word_affinities nlp pv cfg word).getD [] =
      pv.foldl (fun acc pc =>
        if similarityThreshold cfg ≤ dot (vecDiv v (npNorm v)) pc.2 then
          pyInsert pc.1
            (round3 (min ((dot (vecDiv v (npNorm v)) pc.2 - similarityThreshold cfg) /
              (1 - similarityThreshold cfg)) 1)) acc
        else acc) [] := by
  have hpos := pure_get_vector_norm_pos nlp word v h
  unfold compute_word_affinities
  rw [h]
  simp only [hpos.ne', if_false, ite_false]
  split
  · next he => rw [he]; rfl
  · rfl

/- Concrete fixtures shared by the witnesses below. -/

/-- A provider giving every word the vector `[1]`. -/
def nlpOne : Nlp := fun _ => { has_vector := true, vector := [1] }

/-- A provider with no vector for any word. -/
def nlpNone : Nlp := fun _ => { has_vector := false, vector := [] }

/-- A poles configuration with no poles and no configured threshold. -/
def cfgDefault : PolesConfig := { poles := [], similarity_threshold := none }

lemma dot_one : dot [1] [1] = 1 := by
  simp [dot]

lemma ratSqrt_one : ratSqrt 1 = 1 := by
  unfold ratSqrt
  rw [if_neg (by norm_num)]
  rw [Rat.num_one, Rat.den_one]
  norm_num [isqrt, isqrtAux]

lemma npNorm_one : npNorm [1] = 1 := by
  unfold npNorm
  rw [dot_one, ratSqrt_one]

lemma pure_get_vector_nlpOne (w : String) : pure_get_vector nlpOne w = some [1] := by
  unfold pure_get_vector nlpOne
  rw [if_pos]
  constructor
  · rfl
  · rw [npNorm_one]; norm_num

lemma pure_get_vector_nlpNone (w : String) : pure_get_vector nlpNone w = none := by
  unfold pure_get_vector nlpNone
  rw [if_neg]
  simp

/- ────────────────────────────────────────────
   Claims
   ──────────────────────────────────────────── -/

/-- C1: for a word whose vector is available (hence of positive norm) and
any pole centroid, the pole appears in the word's affinity map exactly
when the cosine similarity `s` of the normalized word vector with the
centroid satisfies `s ≥ T` (the configured threshold, default 0.35), with
affinity `round(min((s - T)/(1 - T), 1.0), 3)`; in particular, for
`T < 1`, similarity exactly `T` yields 0.0 and similarity 1.0 yields 1.0. -/
theorem claim_C1 (nlp : Nlp) (pole_vectors : List (String × List ℚ))
    (cfg : PolesConfig) (word : String) (v : List ℚ) (pname : String)
    (centroid : List ℚ) (T s : ℚ)
    (hv : pure_get_vector nlp word = some v)
    (hnodup : (pole_vectors.map Prod.fst).Nodup)
    (hmem : (pname, centroid) ∈ pole_vectors)
    (hT : T = similarityThreshold cfg)
    (hs : s = dot (vecDiv v (npNorm v)) centroid) :
    alookup ((compute_word_affinities nlp pole_vectors cfg word).getD []) pname
        = (if T ≤ s then some (round3 (min ((s - T) / (1 - T)) 1)) else none)
      ∧ (T < 1 → s = T →
          alookup ((compute_word_affinities nlp pole_vectors cfg word).getD []) pname
            = some 0)
      ∧ (T < 1 → s = 1 →
          alookup ((compute_word_affinities nlp pole_vectors cfg word).getD []) pname
            = some 1) := by
  subst hT hs
  rw [compute_word_affinities_eq nlp pole_vectors cfg word v hv]
  have hmain := foldl_insert_alookup_mem
    (fun acc pc =>
      if similarityThreshold cfg ≤ dot (vecDiv v (npNorm v)) pc.2 then
        pyInsert pc.1
          (round3 (min ((dot (vecDiv v (npNorm v)) pc.2 - similarityThreshold cfg) /
            (1 - similarityThreshold cfg)) 1)) acc
      else acc)
    Prod.fst
    (fun pc => similarityThreshold cfg ≤ dot (vecDiv v (npNorm v)) pc.2)
    (fun pc =>
      round3 (min ((dot (vecDiv v (npNorm v)) pc.2 - similarityThreshold cfg) /
        (1 - similarityThreshold cfg)) 1))
    (fun m b => rfl)
    pole_vectors [] (pname, centroid) hnodup hmem
  dsimp only [alookup] at hmain
  refine ⟨hmain, ?_, ?_⟩
  · intro hT1 hsT
    rw [hmain, hsT]
    rw [if_pos le_rfl, sub_self, zero_div, min_eq_left zero_le_one, round3_zero]
  · intro hT1 hs1
    rw [hmain, hs1]
    have hne : 1 - similarityThreshold cfg ≠ 0 := sub_ne_zero_of_ne (ne_of_gt hT1)
    rw [if_pos (le_of_lt hT1), div_self hne, min_self, round3_one]

theorem claim_C1_witness :
    alookup ((compute_word_affinities nlpOne [("fire", [1])] cfgDefault "ab").getD [])
      "fire" = some 1 := by
  have hs1 : dot (vecDiv [1] (npNorm [1])) [1] = 1 := by
    rw [npNorm_one]
    norm_num [vecDiv, dot]
  have h := claim_C1 nlpOne [("fire", [1])] cfgDefault "ab" [1] "fire" [1]
    (0.35) (dot (vecDiv [1] (npNorm [1])) [1])
    (pure_get_vector_nlpOne "ab") (by simp) (by simp) rfl rfl
  exact h.2.2 (by norm_num) hs1


lemma affinity_fold_mem_bounded (cfg : PolesConfig) (v : List ℚ)
    (pv : List (String × List ℚ)) (p : String) (a : ℚ)
    (hT1 : similarityThreshold cfg < 1)
    (hmem : (p, a) ∈ pv.foldl (fun acc pc =>
      if similarityThreshold cfg ≤ dot (vecDiv v (npNorm v)) pc.2 then
        pyInsert pc.1
          (round3 (min ((dot (vecDiv v (npNorm v)) pc.2 - similarityThreshold cfg) /
            (1 - similarityThreshold cfg)) 1)) acc
      else acc) []) :
    0 ≤ a ∧ a ≤ 1 := by
  rcases foldl_insert_mem_pairs
      (fun acc pc =>
        if similarityThreshold cfg ≤ dot (vecDiv v (npNorm v)) pc.2 then
          pyInsert pc.1
            (round3 (min ((dot (vecDiv v (npNorm v)) pc.2 - similarityThreshold cfg) /
              (1 - similarityThreshold cfg)) 1)) acc
        else acc)
      Prod.fst
      (fun pc => similarityThreshold cfg ≤ dot (vecDiv v (npNorm v)) pc.2)
      (fun pc =>
        round3 (min ((dot (vecDiv v (npNorm v)) pc.2 - similarityThreshold cfg) /
          (1 - similarityThreshold cfg)) 1))
      (fun m b => rfl) pv [] (p, a) hmem with h | ⟨pc, _, hP, heq⟩
  · simp at h
  · have ha : a = round3 (min ((dot (vecDiv v (npNorm v)) pc.2 - similarityThreshold cfg) /
        (1 - similarityThreshold cfg)) 1) := congrArg Prod.snd heq
    have hscaled : 0 ≤ (dot (vecDiv v (npNorm v)) pc.2 - similarityThreshold cfg) /
        (1 - similarityThreshold cfg) :=
      div_nonneg (sub_nonneg.mpr hP) (by linarith)
    constructor
    · rw [ha]
      exact round3_nonneg _ (le_min hscaled zero_le_one)
    · rw [ha]
      exact round3_le _ (min_le_right _ _)

lemma compute_word_affinities_values (nlp : Nlp) (pv : List (String × List ℚ))
    (cfg : PolesConfig) (word p : String) (a : ℚ)
    (hT1 : similarityThreshold cfg < 1)
    (hmem : (p, a) ∈ (compute_word_affinities nlp pv cfg word).getD []) :
    0 ≤ a ∧ a ≤ 1 := by
  rcases hv : pure_get_vector nlp word with _ | v
  · unfold compute_word_affinities at hmem
    rw [hv] at hmem
    simp at hmem
  · rw [compute_word_affinities_eq nlp pv cfg word v hv] at hmem
    exact affinity_fold_mem_bounded cfg v pv p a hT1 hmem

lemma compute_environmental_effects_values (poles : List (String × PoleData))
    (affinities : List (String × ℚ)) (p : String) (x : ℚ)
    (hmem : (p, x) ∈ compute_environmental_effects poles affinities) :
    -1 ≤ x ∧ x ≤ 1 := by
  unfold compute_environmental_effects at hmem
  rcases List.mem_map.mp hmem with ⟨pe, _, heq⟩
  have hx : x = round3 (max (-1) (min 1 pe.2)) := (congrArg Prod.snd heq).symm
  constructor
  · rw [hx]
    exact neg_one_le_round3 _ (le_max_left _ _)
  · rw [hx]
    exact round3_le _ (max_le (by norm_num) (min_le_left _ _))

lemma generate_fold_mem (nlp : Nlp) (cfg : PolesConfig)
    (pv : List (String × List ℚ)) :
    ∀ (l : List String) (st : GenResult) (p : String × Entry),
      p ∈ (l.foldl (generate_step nlp cfg pv) st).dict →
      p ∈ st.dict ∨ ∃ aff, compute_word_affinities nlp pv cfg p.1 = some aff ∧
        p.2 = { poles := aff, effects := compute_environmental_effects cfg.poles aff } := by
  intro l
  induction l with
  | nil => intro st p h; exact Or.inl h
  | cons w rest ih =>
    intro st p h
    rw [List.foldl_cons] at h
    rcases ih (generate_step nlp cfg pv st w) p h with h1 | h1
    · rcases haff : compute_word_affinities nlp pv cfg w with _ | aff
      · unfold generate_step at h1
        rw [haff] at h1
        exact Or.inl h1
      · unfold generate_step at h1
        rw [haff] at h1
        dsimp only at h1
        split at h1
        · exact Or.inl h1
        · rcases mem_pyInsert p w
            { poles := aff, effects := compute_environmental_effects cfg.poles aff }
            st.dict h1 with h2 | h2
          · exact Or.inl h2
          · refine Or.inr ⟨aff, ?_, ?_⟩
            · rw [congrArg Prod.fst h2]; exact haff
            · exact congrArg Prod.snd h2
    · exact Or.inr h1

/-- C2: every affinity value in the output dictionary lies in [0, 1] and
every effect value lies in [-1, 1] (stated for any configured threshold
below 1, which includes the default 0.35; rationals carry no NaN/Inf).
The first conjunct states it for the entries of the generated dictionary,
the other two for the functions that construct every entry. -/
theorem claim_C2 :
    (∀ (nlp : Nlp) (cfg : PolesConfig) (pv : List (String × List ℚ))
        (extra_words wordlist : Option (List String)) (w : String) (entry : Entry),
        similarityThreshold cfg < 1 →
        (w, entry) ∈ (generate_dictionary nlp cfg pv extra_words wordlist).dict →
        (∀ pr ∈ entry.poles, 0 ≤ pr.2 ∧ pr.2 ≤ 1) ∧
          (∀ pr ∈ entry.effects, -1 ≤ pr.2 ∧ pr.2 ≤ 1))
    ∧ (∀ (nlp : Nlp) (pv : List (String × List ℚ)) (cfg : PolesConfig)
        (word p : String) (a : ℚ),
        similarityThreshold cfg < 1 →
        (p, a) ∈ (compute_word_affinities nlp pv cfg word).getD [] →
        0 ≤ a ∧ a ≤ 1)
    ∧ (∀ (poles : List (String × PoleData)) (affinities : List (String × ℚ))
        (p : String) (x : ℚ),
        (p, x) ∈ compute_environmental_effects poles affinities →
        -1 ≤ x ∧ x ≤ 1) := by
  refine ⟨?_, ?_, ?_⟩
  · intro nlp cfg pv extra_words wordlist w entry hT1 hmem
    rcases generate_fold_mem nlp cfg pv _ _ _ hmem with h | ⟨aff, haff, hentry⟩
    · simp at h
    · dsimp only at haff hentry
      refine ⟨?_, ?_⟩
      · intro pr hpr
        have hpoles : entry.poles = aff := by rw [hentry]
        have hpr' : pr ∈ (compute_word_affinities nlp pv cfg w).getD [] := by
          rw [haff]
          exact hpoles ▸ hpr
        exact compute_word_affinities_values nlp pv cfg w pr.1 pr.2 hT1 hpr'
      · intro pr hpr
        have heff : entry.effects = compute_environmental_effects cfg.poles aff := by
          rw [hentry]
        exact compute_environmental_effects_values cfg.poles aff pr.1 pr.2 (heff ▸ hpr)
  · intro nlp pv cfg word p a hT1 hmem
    exact compute_word_affinities_values nlp pv cfg word p a hT1 hmem
  · intro poles affinities p x hmem
    exact compute_environmental_effects_values poles affinities p x hmem

/- Fixtures for the C2 and C3 witnesses. -/

/-- A pole whose only effect weight is `temperature ↦ 1`. -/
def pdFire : PoleData :=
  { seeds := ["fuego"], label := none, emoji := none, affects := [("temperature", 1)] }

def polesFire : List (String × PoleData) := [("fire", pdFire)]

lemma affinity_nlpOne_eval :
    (compute_word_affinities nlpOne [("fire", [1])] cfgDefault "ab").getD []
      = [("fire", 1)] := by
  rw [compute_word_affinities_eq nlpOne _ cfgDefault "ab" [1] (pure_get_vector_nlpOne "ab")]
  rw [List.foldl_cons, List.foldl_nil]
  dsimp only
  have hsim : dot (vecDiv [1] (npNorm [1])) [1] = 1 := by
    rw [npNorm_one]
    norm_num [vecDiv, dot]
  rw [hsim]
  have hthr : similarityThreshold cfgDefault = 0.35 := rfl
  rw [hthr, if_pos (by norm_num : (0.35:ℚ) ≤ 1)]
  have hval : (1 - (0.35:ℚ)) / (1 - 0.35) = 1 := div_self (by norm_num)
  rw [hval, min_self, round3_one]
  rfl

lemma effects_polesFire_eval :
    compute_environmental_effects polesFire [("fire", 1)] = [("temperature", 1)] := by
  unfold compute_environmental_effects accumulate_effects
  rw [List.foldl_cons, List.foldl_nil]
  have haff : affectsOf polesFire "fire" = [("temperature", 1)] := rfl
  rw [haff, List.foldl_cons, List.foldl_nil]
  dsimp only [pyInsert, alookup, List.map]
  norm_num
  exact round3_one

theorem claim_C2_witness :
    (0 ≤ (1:ℚ) ∧ (1:ℚ) ≤ 1) ∧ (-1 ≤ (1:ℚ) ∧ (1:ℚ) ≤ 1) := by
  constructor
  · exact claim_C2.2.1 nlpOne [("fire", [1])] cfgDefault "ab" "fire" 1
      (by norm_num [similarityThreshold, cfgDefault]) (by rw [affinity_nlpOne_eval]; simp)
  · exact claim_C2.2.2 polesFire [("fire", 1)] "temperature" 1
      (by rw [effects_polesFire_eval]; simp)


/- ────────────────────────────────────────────
   C3: linearity of the effect accumulation
   ──────────────────────────────────────────── -/

lemma inner_effects_not_mem (a : ℚ) (param : String) :
    ∀ (l : List (String × ℚ)) (e : List (String × ℚ)),
      param ∉ l.map Prod.fst →
      alookup (l.foldl (fun e pw =>
        pyInsert pw.1 ((alookup e pw.1).getD 0 + pw.2 * a) e) e) param
        = alookup e param := by
  intro l
  induction l with
  | nil => intro e _; rfl
  | cons pw rest ih =>
    intro e hmem
    simp only [List.map_cons, List.mem_cons, not_or] at hmem
    rw [List.foldl_cons, ih _ hmem.2, alookup_pyInsert_ne _ _ _ _ hmem.1]

lemma inner_effects_mem (a : ℚ) (param : String) (w : ℚ) :
    ∀ (l : List (String × ℚ)) (e : List (String × ℚ)),
      (l.map Prod.fst).Nodup → (param, w) ∈ l →
      alookup (l.foldl (fun e pw =>
        pyInsert pw.1 ((alookup e pw.1).getD 0 + pw.2 * a) e) e) param
        = some ((alookup e param).getD 0 + w * a) := by
  intro l
  induction l with
  | nil => intro e _ h; simp at h
  | cons pw rest ih =>
    intro e hn hmem
    simp only [List.map_cons, List.nodup_cons] at hn
    rcases List.mem_cons.mp hmem with h1 | h1
    · have hpw1 : pw.1 = param := by rw [← h1]
      have hpw2 : pw.2 = w := by rw [← h1]
      rw [List.foldl_cons,
        inner_effects_not_mem a param rest _ (hpw1 ▸ hn.1), hpw1, hpw2,
        alookup_pyInsert_self]
    · have hne : pw.1 ≠ param := by
        intro he
        exact hn.1 (he ▸ List.mem_map_of_mem Prod.fst h1)
      rw [List.foldl_cons, ih _ hn.2 h1,
        alookup_pyInsert_ne _ _ _ _ (Ne.symm hne)]

lemma affectsOf_nodup (poles : List (String × PoleData))
    (hn : ∀ pp ∈ poles, (pp.2.affects.map Prod.fst).Nodup) (pn : String) :
    ((affectsOf poles pn).map Prod.fst).Nodup := by
  unfold affectsOf
  rcases h : alookup poles pn with _ | pd
  · simp
  · simpa using hn (pn, pd) (alookup_mem poles pn pd h)

lemma accumulate_effects_general (poles : List (String × PoleData)) (param : String)
    (hn : ∀ pp ∈ poles, (pp.2.affects.map Prod.fst).Nodup) :
    ∀ (aff : List (String × ℚ)) (e : List (String × ℚ)),
      alookup (aff.foldl (fun effects pa =>
        (affectsOf poles pa.1).foldl (fun e pw =>
          pyInsert pw.1 ((alookup e pw.1).getD 0 + pw.2 * pa.2) e) effects) e) param
      = match alookup e param with
        | some c => some (c + (aff.map (fun pa =>
            (alookup (affectsOf poles pa.1) param).getD 0 * pa.2)).sum)
        | none =>
          if ∃ pa ∈ aff, param ∈ (affectsOf poles pa.1).map Prod.fst
          then some ((aff.map (fun pa =>
            (alookup (affectsOf poles pa.1) param).getD 0 * pa.2)).sum)
          else none := by
  intro aff
  induction aff with
  | nil =>
    intro e
    rw [List.foldl_nil]
    rcases he : alookup e param with _ | c <;> simp
  | cons pa rest ih =>
    intro e
    rw [List.foldl_cons]
    by_cases hc : param ∈ (affectsOf poles pa.1).map Prod.fst
    · obtain ⟨pr, hpr, hpr1⟩ := List.mem_map.mp hc
      have hw : (param, pr.2) ∈ affectsOf poles pa.1 := by
        have : pr = (param, pr.2) := by
          rw [← hpr1]
        exact this ▸ hpr
      have hlw : alookup (affectsOf poles pa.1) param = some pr.2 :=
        alookup_of_mem_nodup _ _ _ (affectsOf_nodup poles hn pa.1) hw
      have he' := inner_effects_mem pa.2 param pr.2 (affectsOf poles pa.1) e
        (affectsOf_nodup poles hn pa.1) hw
      rw [ih _, he']
      simp only [List.map_cons, List.sum_cons, hlw, Option.getD_some]
      rcases he : alookup e param with _ | c
      · simp only [Option.getD_none, zero_add]
        rw [if_pos ⟨pa, List.mem_cons_self pa rest, hc⟩]
      · simp only [Option.getD_some]
        rw [add_assoc]
    · have hlw : alookup (affectsOf poles pa.1) param = none :=
        (alookup_eq_none_iff _ _).mpr hc
      have he' := inner_effects_not_mem pa.2 param (affectsOf poles pa.1) e hc
      rw [ih _, he']
      simp only [List.map_cons, List.sum_cons, hlw, Option.getD_none, zero_mul, zero_add]
      rcases he : alookup e param with _ | c
      · by_cases hex : ∃ pa' ∈ rest, param ∈ (affectsOf poles pa'.1).map Prod.fst
        · rw [if_pos hex, if_pos ?_]
          obtain ⟨pa', hpa', hp⟩ := hex
          exact ⟨pa', List.mem_cons_of_mem _ hpa', hp⟩
        · rw [if_neg hex, if_neg ?_]
          rintro ⟨pa', hpa', hp⟩
          rcases List.mem_cons.mp hpa' with rfl | h
          · exact hc hp
          · exact hex ⟨pa', h, hp⟩
      · rfl

/-- C3: for any affinity map, the accumulated per-parameter effect before
clamping and rounding is the sum over the affinity pairs of
`weight * strength` (a pole contributing 0 when it does not configure the
parameter), starting from 0.0; the parameter is present exactly when some
pole of the map configures it.  In particular two poles with weights
`w1, w2` and affinities `a1, a2` yield `w1*a1 + w2*a2`. -/
theorem claim_C3 (poles : List (String × PoleData)) (affinities : List (String × ℚ))
    (param : String)
    (hn : ∀ pp ∈ poles, (pp.2.affects.map Prod.fst).Nodup) :
    alookup (accumulate_effects poles affinities) param =
      if ∃ pa ∈ affinities, param ∈ (affectsOf poles pa.1).map Prod.fst
      then some ((affinities.map (fun pa =>
        (alookup (affectsOf poles pa.1) param).getD 0 * pa.2)).sum)
      else none := by
  unfold accumulate_effects
  rw [accumulate_effects_general poles param hn affinities []]
  rfl

/- Fixture: two poles both affecting `temperature`, with weights 9/10 and 1/2. -/

def pdP1 : PoleData :=
  { seeds := [], label := none, emoji := none, affects := [("temperature", 9/10)] }

def pdP2 : PoleData :=
  { seeds := [], label := none, emoji := none, affects := [("temperature", 1/2)] }

def polesTwo : List (String × PoleData) := [("p1", pdP1), ("p2", pdP2)]

theorem claim_C3_witness :
    alookup (accumulate_effects polesTwo [("p1", 1/2), ("p2", 1/4)]) "temperature" =
      if ∃ pa ∈ [("p1", (1:ℚ)/2), ("p2", (1:ℚ)/4)],
          "temperature" ∈ (affectsOf polesTwo pa.1).map Prod.fst
      then some (([("p1", (1:ℚ)/2), ("p2", (1:ℚ)/4)].map (fun pa =>
        (alookup (affectsOf polesTwo pa.1) "temperature").getD 0 * pa.2)).sum)
      else none :=
  claim_C3 polesTwo [("p1", 1/2), ("p2", 1/4)] "temperature"
    (by simp [polesTwo, pdP1, pdP2])


/- ────────────────────────────────────────────
   C4 / C8: centroid computation
   ──────────────────────────────────────────── -/

lemma npNorm_nonneg (v : List ℚ) : 0 ≤ npNorm v := ratSqrt_nonneg _

lemma centroids_step_eq (nlp : Nlp) :
    ∀ (m : List (String × List ℚ)) (b : String × PoleData),
      (fun pole_vectors pp =>
        let vectors := pp.2.seeds.filterMap (pure_get_vector nlp)
        if vectors = [] then pole_vectors
        else
          let centroid := vecMean vectors
          let norm := npNorm centroid
          pyInsert pp.1 (if 0 < norm then vecDiv centroid norm else centroid) pole_vectors) m b
      = if ¬(b.2.seeds.filterMap (pure_get_vector nlp) = []) then
          pyInsert b.1
            (if 0 < npNorm (vecMean (b.2.seeds.filterMap (pure_get_vector nlp))) then
              vecDiv (vecMean (b.2.seeds.filterMap (pure_get_vector nlp)))
                (npNorm (vecMean (b.2.seeds.filterMap (pure_get_vector nlp))))
            else vecMean (b.2.seeds.filterMap (pure_get_vector nlp))) m
        else m := by
  intro m b
  dsimp only
  by_cases h : b.2.seeds.filterMap (pure_get_vector nlp) = []
  · rw [if_pos h, if_neg (not_not_intro h)]
  · rw [if_neg h, if_pos h]

/-- C4: a pole with at least one seed vector stores as centroid the
elementwise mean of the valid seed vectors divided by its norm, except
that a mean of exactly zero norm is stored unnormalized; seeds without
vectors are skipped (`filterMap`) without aborting the pole. -/
theorem claim_C4 (nlp : Nlp) (poles : List (String × PoleData)) (pname : String)
    (pd : PoleData)
    (hnodup : (poles.map Prod.fst).Nodup)
    (hmem : (pname, pd) ∈ poles)
    (hvec : pd.seeds.filterMap (pure_get_vector nlp) ≠ []) :
    alookup (compute_pole_centroids nlp poles) pname =
      some (if npNorm (vecMean (pd.seeds.filterMap (pure_get_vector nlp))) = 0
            then vecMean (pd.seeds.filterMap (pure_get_vector nlp))
            else vecDiv (vecMean (pd.seeds.filterMap (pure_get_vector nlp)))
                   (npNorm (vecMean (pd.seeds.filterMap (pure_get_vector nlp))))) := by
  unfold compute_pole_centroids
  have hmain := foldl_insert_alookup_mem _ Prod.fst
    (fun b : String × PoleData => ¬(b.2.seeds.filterMap (pure_get_vector nlp) = []))
    (fun b : String × PoleData =>
      if 0 < npNorm (vecMean (b.2.seeds.filterMap (pure_get_vector nlp))) then
        vecDiv (vecMean (b.2.seeds.filterMap (pure_get_vector nlp)))
          (npNorm (vecMean (b.2.seeds.filterMap (pure_get_vector nlp))))
      else vecMean (b.2.seeds.filterMap (pure_get_vector nlp)))
    (centroids_step_eq nlp) poles [] (pname, pd) hnodup hmem
  dsimp only at hmain
  rw [hmain, if_pos hvec]
  by_cases hz : npNorm (vecMean (pd.seeds.filterMap (pure_get_vector nlp))) = 0
  · rw [if_pos hz, if_neg (by rw [hz]; exact lt_irrefl 0)]
  · rw [if_neg hz,
      if_pos (lt_of_le_of_ne (npNorm_nonneg _) (Ne.symm hz))]

theorem claim_C4_witness :
    alookup (compute_pole_centroids nlpOne polesFire) "fire" =
      some (if npNorm (vecMean (pdFire.seeds.filterMap (pure_get_vector nlpOne))) = 0
            then vecMean (pdFire.seeds.filterMap (pure_get_vector nlpOne))
            else vecDiv (vecMean (pdFire.seeds.filterMap (pure_get_vector nlpOne)))
                   (npNorm (vecMean (pdFire.seeds.filterMap (pure_get_vector nlpOne))))) :=
  claim_C4 nlpOne polesFire "fire" pdFire (by simp [polesFire]) (by simp [polesFire])
    (by simp [pdFire, pure_get_vector_nlpOne])

/-- C8: a pole none of whose seeds yields a vector receives no centroid
(the source only warns) and never appears in any word's affinity map. -/
theorem claim_C8 (nlp : Nlp) (poles : List (String × PoleData)) (pname : String)
    (pd : PoleData) (cfg : PolesConfig) (word : String)
    (hnodup : (poles.map Prod.fst).Nodup)
    (hmem : (pname, pd) ∈ poles)
    (hseeds : ∀ seed ∈ pd.seeds, pure_get_vector nlp seed = none) :
    pname ∉ (compute_pole_centroids nlp poles).map Prod.fst
    ∧ alookup ((compute_word_affinities nlp (compute_pole_centroids nlp poles)
        cfg word).getD []) pname = none := by
  have hnil : pd.seeds.filterMap (pure_get_vector nlp) = [] := by
    rw [List.filterMap_eq_nil_iff]
    exact hseeds
  have hnotkey : pname ∉ (compute_pole_centroids nlp poles).map Prod.fst := by
    intro hk
    unfold compute_pole_centroids at hk
    rcases foldl_insert_keys _ Prod.fst
        (fun b : String × PoleData => ¬(b.2.seeds.filterMap (pure_get_vector nlp) = []))
        (fun b : String × PoleData =>
          if 0 < npNorm (vecMean (b.2.seeds.filterMap (pure_get_vector nlp))) then
            vecDiv (vecMean (b.2.seeds.filterMap (pure_get_vector nlp)))
              (npNorm (vecMean (b.2.seeds.filterMap (pure_get_vector nlp))))
          else vecMean (b.2.seeds.filterMap (pure_get_vector nlp)))
        (centroids_step_eq nlp) poles [] pname hk with h | ⟨b, hb, hbk, hbP⟩
    · simp at h
    · have h1 : alookup poles pname = some pd :=
        alookup_of_mem_nodup poles pname pd hnodup hmem
      have h2 : alookup poles pname = some b.2 := by
        rw [← hbk]
        exact alookup_of_mem_nodup poles b.1 b.2 hnodup
          (by rw [show (b.1, b.2) = b from rfl]; exact hb)
      rw [h1] at h2
      injection h2 with h3
      exact hbP (h3 ▸ hnil)
  refine ⟨hnotkey, ?_⟩
  rcases hv : pure_get_vector nlp word with _ | v
  · unfold compute_word_affinities
    rw [hv]
    rfl
  · rw [compute_word_affinities_eq nlp _ cfg word v hv]
    rw [foldl_insert_alookup_not_mem _ Prod.fst
      (fun pc : String × List ℚ =>
        similarityThreshold cfg ≤ dot (vecDiv v (npNorm v)) pc.2)
      (fun pc : String × List ℚ =>
        round3 (min ((dot (vecDiv v (npNorm v)) pc.2 - similarityThreshold cfg) /
          (1 - similarityThreshold cfg)) 1))
      (fun m b => rfl) _ [] pname hnotkey]
    rfl

theorem claim_C8_witness :
    "fire" ∉ (compute_pole_centroids nlpNone polesFire).map Prod.fst
    ∧ alookup ((compute_word_affinities nlpNone (compute_pole_centroids nlpNone polesFire)
        cfgDefault "ab").getD []) "fire" = none :=
  claim_C8 nlpNone polesFire "fire" pdFire cfgDefault "ab" (by simp [polesFire])
    (by simp [polesFire]) (by intro s _; exact pure_get_vector_nlpNone s)

/- ────────────────────────────────────────────
   C9: words without vectors
   ──────────────────────────────────────────── -/

lemma compute_word_affinities_none (nlp : Nlp) (pv : List (String × List ℚ))
    (cfg : PolesConfig) (word : String) (h : pure_get_vector nlp word = none) :
    compute_word_affinities nlp pv cfg word = none := by
  unfold compute_word_affinities
  rw [h]

lemma gen_fold_count (nlp : Nlp) (cfg : PolesConfig) (pv : List (String × List ℚ)) :
    ∀ (l : List String) (st : GenResult),
      (l.foldl (generate_step nlp cfg pv) st).no_vector =
        st.no_vector + l.countP (fun w => decide (compute_word_affinities nlp pv cfg w = none)) := by
  intro l
  induction l with
  | nil => intro st; simp
  | cons w rest ih =>
    intro st
    rw [List.foldl_cons, ih]
    rw [List.countP_cons]
    rcases haff : compute_word_affinities nlp pv cfg w with _ | aff
    · have hstep : (generate_step nlp cfg pv st w).no_vector = st.no_vector + 1 := by
        unfold generate_step
        rw [haff]
      rw [hstep]
      simp [haff]
      omega
    · have hstep : (generate_step nlp cfg pv st w).no_vector = st.no_vector := by
        unfold generate_step
        rw [haff]
        dsimp only
        split
        · rfl
        · rfl
      rw [hstep]
      simp [haff]

/-- C9: a candidate word for which the provider has no vector gets the
absent affinity result `none` (and `some` results are never the empty
map), never appears in the output dictionary, and is tallied in the
`no_vector` diagnostic counter rather than raised as an error. -/
theorem claim_C9 (nlp : Nlp) (cfg : PolesConfig) (pv : List (String × List ℚ))
    (extra_words wordlist : Option (List String)) (word : String)
    (hv : pure_get_vector nlp word = none) :
    compute_word_affinities nlp pv cfg word = none
    ∧ word ∉ (generate_dictionary nlp cfg pv extra_words wordlist).dict.map Prod.fst
    ∧ (generate_dictionary nlp cfg pv extra_words wordlist).no_vector
        = (sorted_candidates extra_words wordlist).countP
            (fun w => decide (compute_word_affinities nlp pv cfg w = none))
    ∧ (∀ (w' : String) (m : List (String × ℚ)),
        compute_word_affinities nlp pv cfg w' = some m → m ≠ []) := by
  have hc1 : compute_word_affinities nlp pv cfg word = none :=
    compute_word_affinities_none nlp pv cfg word hv
  refine ⟨hc1, ?_, ?_, ?_⟩
  · intro hk
    rcases List.mem_map.mp hk with ⟨p, hp, hp1⟩
    rcases generate_fold_mem nlp cfg pv _ _ _ hp with h | ⟨aff, haff, _⟩
    · simp at h
    · rw [hp1, hc1] at haff
      exact Option.noConfusion haff
  · unfold generate_dictionary
    rw [gen_fold_count nlp cfg pv]
    simp
  · intro w' m hm
    unfold compute_word_affinities at hm
    rcases hv' : pure_get_vector nlp w' with _ | v
    · rw [hv'] at hm
      exact Option.noConfusion hm
    · rw [hv'] at hm
      dsimp only at hm
      split at hm
      · exact Option.noConfusion hm
      · split at hm
        · exact Option.noConfusion hm
        · next hne2 =>
          injection hm with hm'
          exact hm' ▸ hne2

theorem claim_C9_witness :
    compute_word_affinities nlpNone [] cfgDefault "zz" = none
    ∧ "zz" ∉ (generate_dictionary nlpNone cfgDefault [] none none).dict.map Prod.fst
    ∧ (generate_dictionary nlpNone cfgDefault [] none none).no_vector
        = (sorted_candidates none none).countP
            (fun w => decide (compute_word_affinities nlpNone [] cfgDefault w = none))
    ∧ (∀ (w' : String) (m : List (String × ℚ)),
        compute_word_affinities nlpNone [] cfgDefault w' = some m → m ≠ []) :=
  claim_C9 nlpNone cfgDefault [] none none "zz" (pure_get_vector_nlpNone "zz")

/- ────────────────────────────────────────────
   C10: the vector cache
   ──────────────────────────────────────────── -/

/-- A cache is well-formed when every stored answer is the one the
pipeline would give: the invariant maintained by `get_vector`. -/
def CacheOK (nlp : Nlp) (cache : List (String × Option (List ℚ))) : Prop :=
  ∀ kv ∈ cache, kv.2 = pure_get_vector nlp kv.1

/-- `compute_word_affinities` with the zero-norm early return removed:
used to state that the guard is unreachable for vectors obtained through
`get_vector`. -/
def compute_word_affinities_unguarded (nlp : Nlp)
    (pole_vectors : List (String × List ℚ)) (cfg : PolesConfig) (word : String) :
    Option (List (String × ℚ)) :=
  match pure_get_vector nlp word with
  | none => none
  | some word_vec =>
    let word_vec_normalized := vecDiv word_vec (npNorm word_vec)
    let threshold := similarityThreshold cfg
    let affinities := pole_vectors.foldl (fun acc pc =>
      let similarity := dot word_vec_normalized pc.2
      if threshold ≤ similarity then
        pyInsert pc.1 (round3 (min ((similarity - threshold) / (1 - threshold)) 1)) acc
      else acc) []
    if affinities = [] then none else some affinities

lemma compute_word_affinities_guard_eq (nlp : Nlp) (pv : List (String × List ℚ))
    (cfg : PolesConfig) (w : String) :
    compute_word_affinities nlp pv cfg w = compute_word_affinities_unguarded nlp pv cfg w := by
  unfold compute_word_affinities compute_word_affinities_unguarded
  rcases hv : pure_get_vector nlp w with _ | v
  · rfl
  · have hpos := pure_get_vector_norm_pos nlp w v hv
    dsimp only
    rw [if_neg hpos.ne']

/-- C10: `get_vector` returns either `none` or a vector of positive norm,
answers agree with the cache-free semantics, the cache invariant is
preserved, a repeated call returns the cached answer with the state
unchanged; consequently the zero-norm early return of
`compute_word_affinities` is unreachable and the guard can be dropped. -/
theorem claim_C10 (nlp : Nlp) (cache : List (String × Option (List ℚ))) (word : String)
    (hok : CacheOK nlp cache) :
    (get_vector nlp cache word).1 = pure_get_vector nlp word
    ∧ CacheOK nlp (get_vector nlp cache word).2
    ∧ get_vector nlp (get_vector nlp cache word).2 word = get_vector nlp cache word
    ∧ (∀ v, (get_vector nlp cache word).1 = some v → 0 < npNorm v)
    ∧ (∀ (pv : List (String × List ℚ)) (cfg : PolesConfig) (w : String),
        compute_word_affinities nlp pv cfg w
          = compute_word_affinities_unguarded nlp pv cfg w) := by
  have hguard := fun pv cfg w => compute_word_affinities_guard_eq nlp pv cfg w
  rcases hl : alookup cache word with _ | r
  · by_cases hcond : (nlp word).has_vector = true ∧ 0 < npNorm ((nlp word).vector)
    · have hres : get_vector nlp cache word =
          (some ((nlp word).vector), pyInsert word (some ((nlp word).vector)) cache) := by
        unfold get_vector
        rw [hl]
        dsimp only
        rw [if_pos hcond]
      have hpure : pure_get_vector nlp word = some ((nlp word).vector) := by
        unfold pure_get_vector
        rw [if_pos hcond]
      refine ⟨?_, ?_, ?_, ?_, hguard⟩
      · rw [hres, hpure]
      · rw [hres]
        intro kv hkv
        rcases mem_pyInsert kv word (some ((nlp word).vector)) cache hkv with h | h
        · exact hok kv h
        · rw [h]
          exact hpure.symm
      · rw [hres]
        unfold get_vector
        rw [alookup_pyInsert_self]
      · intro v hv
        rw [hres] at hv
        injection hv with hv'
        exact hv' ▸ hcond.2
    · have hres : get_vector nlp cache word = (none, pyInsert word none cache) := by
        unfold get_vector
        rw [hl]
        dsimp only
        rw [if_neg hcond]
      have hpure : pure_get_vector nlp word = none := by
        unfold pure_get_vector
        rw [if_neg hcond]
      refine ⟨?_, ?_, ?_, ?_, hguard⟩
      · rw [hres, hpure]
      · rw [hres]
        intro kv hkv
        rcases mem_pyInsert kv word none cache hkv with h | h
        · exact hok kv h
        · rw [h]
          exact hpure.symm
      · rw [hres]
        unfold get_vector
        rw [alookup_pyInsert_self]
      · intro v hv
        rw [hres] at hv
        exact Option.noConfusion hv
  · have hres : get_vector nlp cache word = (r, cache) := by
      unfold get_vector
      rw [hl]
    have hpure : r = pure_get_vector nlp word :=
      hok (word, r) (alookup_mem cache word r hl)
    refine ⟨?_, ?_, ?_, ?_, hguard⟩
    · rw [hres]
      exact hpure
    · rw [hres]
      exact hok
    · rw [hres]
      exact hres
    · intro v hv
      rw [hres] at hv
      rw [hpure] at hv
      exact pure_get_vector_norm_pos nlp word v hv

theorem claim_C10_witness :
    (get_vector nlpOne [] "ab").1 = pure_get_vector nlpOne "ab" :=
  (claim_C10 nlpOne [] "ab" (by intro kv hkv; simp at hkv)).1


/- ────────────────────────────────────────────
   C5: determinism and the timestamp
   ──────────────────────────────────────────── -/

/-- C5 counterexample: with identical pole configuration, vector provider
and candidate words, two runs at different wall-clock times produce
different outputs, because `_meta.generated_at` records the run time; the
serialized dictionaries are not byte-identical. -/
theorem claim_C5_counterexample :
    generate_output "es_core_news_lg" "2024-01-01T00:00:00" [] []
      ≠ generate_output "es_core_news_lg" "2024-01-01T00:00:01" [] [] := by
  intro h
  have h2 := congrArg (fun o => o.meta.generated_at) h
  simp only [generate_output] at h2
  exact absurd h2 (by decide)

/-- C5 (amended): the output is independent of the run except for the
`_meta.generated_at` timestamp - the `words` table, the pole metadata and
every other `_meta` field of two runs over the same inputs coincide (so
runs with equal timestamps are identical) - and candidates are processed
in deterministic sorted order. -/
theorem claim_C5 :
    (∀ (model t1 t2 : String) (poles : List (String × PoleData))
        (dict : List (String × Entry)),
      (generate_output model t1 poles dict).words
          = (generate_output model t2 poles dict).words
      ∧ (generate_output model t1 poles dict).poles
          = (generate_output model t2 poles dict).poles
      ∧ { (generate_output model t1 poles dict).meta with
            generated_at := (generate_output model t2 poles dict).meta.generated_at }
          = (generate_output model t2 poles dict).meta)
    ∧ (∀ extra_words wordlist : Option (List String),
        (sorted_candidates extra_words wordlist).Sorted (· ≤ ·)) :=
  ⟨fun _ _ _ _ _ => ⟨rfl, rfl, rfl⟩, fun _ _ => Finset.sort_sorted _ _⟩

/- ────────────────────────────────────────────
   C6: extend-mode merge
   ──────────────────────────────────────────── -/

lemma foldl_insert_keys_mono {α β : Type}
    (f : List (String × α) → β → List (String × α))
    (key : β → String) (P : β → Prop) [DecidablePred P] (val : β → α)
    (hf : ∀ m b, f m b = if P b then pyInsert (key b) (val b) m else m) :
    ∀ (l : List β) (acc : List (String × α)) (x : String),
      x ∈ acc.map Prod.fst → x ∈ (l.foldl f acc).map Prod.fst := by
  intro l
  induction l with
  | nil => intro acc x h; exact h
  | cons b rest ih =>
    intro acc x h
    rw [List.foldl_cons]
    apply ih
    rw [hf]
    split
    · exact (keys_mem_pyInsert x (key b) (val b) acc).mpr (Or.inl h)
    · exact h

/-- C6: in extend mode the merged dictionary is a flat union keyed by
word and the new entry fully replaces the old one for every shared key -
lookup in the merge is lookup in the new dictionary whenever the word is
there, and lookup in the old one otherwise, with no per-field blending. -/
theorem claim_C6 (existing new : List (String × Entry)) (w : String)
    (hn : (new.map Prod.fst).Nodup) :
    alookup (extend_merge existing new) w
      = (if w ∈ new.map Prod.fst then alookup new w else alookup existing w)
    ∧ (w ∈ (extend_merge existing new).map Prod.fst
        ↔ w ∈ existing.map Prod.fst ∨ w ∈ new.map Prod.fst) := by
  have hf : ∀ (m : List (String × Entry)) (kv : String × Entry),
      (fun m kv => pyInsert kv.1 kv.2 m) m kv
        = if (fun _ : String × Entry => True) kv then
            pyInsert kv.1 kv.2 m else m := by
    intro m kv
    rw [if_pos trivial]
  have hkey : ∀ v, (w, v) ∈ new → alookup (extend_merge existing new) w = some v := by
    intro v hv
    have h := foldl_insert_alookup_mem _ Prod.fst (fun _ => True) Prod.snd hf
      new existing (w, v) hn hv
    rw [if_pos trivial] at h
    exact h
  constructor
  · by_cases hw : w ∈ new.map Prod.fst
    · rw [if_pos hw]
      obtain ⟨p, hp, hp1⟩ := List.mem_map.mp hw
      have hpw : (w, p.2) ∈ new := by
        have : p = (w, p.2) := by rw [← hp1]
        exact this ▸ hp
      rw [hkey p.2 hpw, alookup_of_mem_nodup new w p.2 hn hpw]
    · rw [if_neg hw]
      exact foldl_insert_alookup_not_mem _ Prod.fst (fun _ => True) Prod.snd hf
        new existing w hw
  · constructor
    · intro hk
      rcases foldl_insert_keys _ Prod.fst (fun _ => True) Prod.snd hf
          new existing w hk with h | ⟨b, hb, hbk, _⟩
      · exact Or.inl h
      · exact Or.inr (hbk ▸ List.mem_map_of_mem Prod.fst hb)
    · rintro (h | h)
      · exact foldl_insert_keys_mono _ Prod.fst (fun _ => True) Prod.snd hf
          new existing w h
      · obtain ⟨p, hp, hp1⟩ := List.mem_map.mp h
        have hpw : (w, p.2) ∈ new := by
          have : p = (w, p.2) := by rw [← hp1]
          exact this ▸ hp
        have hmem := hkey p.2 hpw
        by_contra hcon
        have hnone := (alookup_eq_none_iff (extend_merge existing new) w).mpr hcon
        rw [hmem] at hnone
        exact Option.noConfusion hnone

/- Fixture entries for the C6 witness. -/

def entryOld : Entry := { poles := [], effects := [] }

def entryNew : Entry := { poles := [("fire", 1)], effects := [("temperature", 1)] }

theorem claim_C6_witness :
    alookup (extend_merge [("agua", entryOld)] [("agua", entryNew), ("mar", entryNew)]) "agua"
      = (if "agua" ∈ ([("agua", entryNew), ("mar", entryNew)].map Prod.fst)
         then alookup [("agua", entryNew), ("mar", entryNew)] "agua"
         else alookup [("agua", entryOld)] "agua")
    ∧ ("agua" ∈ (extend_merge [("agua", entryOld)]
          [("agua", entryNew), ("mar", entryNew)]).map Prod.fst
        ↔ "agua" ∈ ([("agua", entryOld)].map Prod.fst)
          ∨ "agua" ∈ ([("agua", entryNew), ("mar", entryNew)].map Prod.fst)) :=
  claim_C6 [("agua", entryOld)] [("agua", entryNew), ("mar", entryNew)] "agua" (by simp)

/- ────────────────────────────────────────────
   C7: the candidate word set
   ──────────────────────────────────────────── -/

/-- C7: the candidate set is the lowercased (and stripped) deduplicated
union of the curated vocabulary, the optional extra words and the
optional word-list file; tokens shorter than 2 characters are excluded
from every source, and word-list tokens must additionally be alphabetic. -/
theorem claim_C7 (extra_words wordlist : Option (List String)) (w : String) :
    (w ∈ candidate_set extra_words wordlist ↔
      (((∃ t ∈ CURATED_WORDS, cleanTok t = w)
          ∨ (∃ t ∈ extra_words.getD [], cleanTok t = w)) ∧ 2 ≤ w.length)
      ∨ ((∃ t ∈ wordlist.getD [], cleanTok t = w)
          ∧ 2 ≤ w.length ∧ pyIsAlpha w = true))
    ∧ (w ∈ candidate_set extra_words wordlist → 2 ≤ w.length) := by
  have hiff : w ∈ candidate_set extra_words wordlist ↔
      (((∃ t ∈ CURATED_WORDS, cleanTok t = w)
          ∨ (∃ t ∈ extra_words.getD [], cleanTok t = w)) ∧ 2 ≤ w.length)
      ∨ ((∃ t ∈ wordlist.getD [], cleanTok t = w)
          ∧ 2 ≤ w.length ∧ pyIsAlpha w = true) := by
    unfold candidate_set
    simp only [Finset.mem_union, List.mem_toFinset, List.mem_filter, List.mem_map,
      decide_eq_true_eq, Bool.and_eq_true]
    constructor
    · rintro ((⟨ht, hl⟩ | ⟨ht, hl⟩) | ⟨ht, hl, ha⟩)
      · exact Or.inl ⟨Or.inl ht, hl⟩
      · exact Or.inl ⟨Or.inr ht, hl⟩
      · exact Or.inr ⟨ht, hl, ha⟩
    · rintro (⟨(ht | ht), hl⟩ | ⟨ht, hl, ha⟩)
      · exact Or.inl (Or.inl ⟨ht, hl⟩)
      · exact Or.inl (Or.inr ⟨ht, hl⟩)
      · exact Or.inr ⟨ht, hl, ha⟩
  refine ⟨hiff, fun hw => ?_⟩
  rcases hiff.mp hw with ⟨_, h2⟩ | ⟨_, h2, _⟩
  · exact h2
  · exact h2


theorem claim_C7_witness :
    "agua" ∈ candidate_set none none ∧ 2 ≤ ("agua" : String).length := by
  have h := claim_C7 none none "agua"
  have hmem : "agua" ∈ candidate_set none none :=
    h.1.mpr (Or.inl ⟨Or.inl ⟨"agua", List.mem_cons_self _ _, by decide⟩, by decide⟩)
  exact ⟨hmem, h.2 hmem⟩

end Text2Wind
